import Mathlib

/-!
Verification development for the AttendEase attendance application.

The definitions below are a shallow embedding of the Python source:
* the attendance table (`models.py`, class `Attendance` with its unique
  constraint on (user_id, subject_id, date)) becomes an association list
  keyed by that triple;
* the direct-edit upsert loop of `mark_attendance` (`app.py` 442-464)
  becomes `Ledger.upsert`;
* dates are modelled as integer day numbers (only order and day
  arithmetic on dates is used by the code under study).
-/

namespace AttendEase

/-- Attendance key `(user_id, subject_id, date)`; the date is a day number. -/
abbrev Key := Nat × Nat × Int

/-- One attendance row: `lectures_total` and `lectures_present`
(`models.py`, class `Attendance`). -/
structure Entry where
  lectures_total : Int
  lectures_present : Int
deriving DecidableEq, Repr

/-- The attendance table, as an association list.  The database enforces
at most one row per key (`UniqueConstraint('user_id','subject_id','date')`),
which appears below as a `Nodup` hypothesis on the key column. -/
abbrev Ledger := List (Key × Entry)

/-- `Attendance.query.filter_by(user.., subject.., date..).first()`:
the first row with the given key. -/
def lookupKey : Ledger → Key → Option Entry
  | [], _ => none
  | (k', e) :: t, k => if k' = k then some e else lookupKey t k

/-- `db.session.delete(existing)`: remove the row found by `first()`. -/
def eraseKey : Ledger → Key → Ledger
  | [], _ => []
  | (k', e) :: t, k => if k' = k then t else (k', e) :: eraseKey t k

/-- The insert-or-update half of the upsert (`app.py` 453-464 and 848-859):
if a row with the key exists its fields are overwritten in place, otherwise
a new row is added (`db.session.add(record)`). -/
def setEntry : Ledger → Key → Entry → Ledger
  | [], k, e => [(k, e)]
  | (k', e') :: t, k, e => if k' = k then (k, e) :: t else (k', e') :: setEntry t k e

/-- The ledger upsert of the direct-edit path (`app.py` 442-464):
`lectures_total == 0` deletes any existing row, otherwise the row for the
key is overwritten or inserted with exactly the given values. -/
def Ledger.upsert (L : Ledger) (k : Key) (total present : Int) : Ledger :=
  if total = 0 then eraseKey L k
  else setEntry L k ⟨total, present⟩

/-- The key column of the table. -/
def keysOf (L : Ledger) : List Key := L.map Prod.fst

/-- Number of rows stored under a key. -/
def countKey (L : Ledger) (k : Key) : Nat := (L.filter (fun kv => kv.1 = k)).length

theorem mem_keysOf_of_mem {L : Ledger} {kv : Key × Entry} (h : kv ∈ L) :
    kv.1 ∈ keysOf L :=
  List.mem_map_of_mem Prod.fst h

theorem filter_key_eq_nil {L : Ledger} {k : Key} (h : k ∉ keysOf L) :
    L.filter (fun kv => kv.1 = k) = [] := by
  rw [List.filter_eq_nil_iff]
  intro a ha
  simp only [decide_eq_true_eq]
  intro hak
  exact h (hak ▸ mem_keysOf_of_mem ha)

theorem lookupKey_eq_none_of_not_mem {L : Ledger} {k : Key}
    (h : k ∉ keysOf L) : lookupKey L k = none := by
  induction L with
  | nil => rfl
  | cons kv t ih =>
    obtain ⟨k', e'⟩ := kv
    simp only [keysOf, List.map_cons, List.mem_cons, not_or] at h
    obtain ⟨h1, h2⟩ := h
    simpa [lookupKey, Ne.symm h1] using ih h2

theorem lookupKey_setEntry_self (L : Ledger) (k : Key) (e : Entry) :
    lookupKey (setEntry L k e) k = some e := by
  induction L with
  | nil => simp [setEntry, lookupKey]
  | cons kv t ih =>
    obtain ⟨k', e'⟩ := kv
    by_cases h : k' = k
    · simp [setEntry, h, lookupKey]
    · simpa [setEntry, h, lookupKey] using ih

theorem lookupKey_setEntry_ne (L : Ledger) (k k' : Key) (e : Entry)
    (h : k' ≠ k) : lookupKey (setEntry L k e) k' = lookupKey L k' := by
  induction L with
  | nil => simp [setEntry, lookupKey, Ne.symm h]
  | cons kv t ih =>
    obtain ⟨ka, ea⟩ := kv
    by_cases hk : ka = k
    · subst hk
      simp [setEntry, lookupKey, h, Ne.symm h]
    · by_cases hk' : ka = k'
      · simp [setEntry, hk, lookupKey, hk', h]
      · simpa [setEntry, hk, lookupKey, hk'] using ih

theorem lookupKey_eraseKey_self {L : Ledger} {k : Key}
    (h : (keysOf L).Nodup) : lookupKey (eraseKey L k) k = none := by
  induction L with
  | nil => rfl
  | cons kv t ih =>
    obtain ⟨ka, ea⟩ := kv
    simp only [keysOf, List.map_cons, List.nodup_cons] at h
    obtain ⟨h1, h2⟩ := h
    by_cases hk : ka = k
    · subst hk
      simpa [eraseKey] using lookupKey_eq_none_of_not_mem h1
    · simpa [eraseKey, hk, lookupKey, hk] using ih h2

theorem countKey_setEntry {L : Ledger} {k : Key} (e : Entry)
    (h : (keysOf L).Nodup) : countKey (setEntry L k e) k = 1 := by
  induction L with
  | nil => simp [setEntry, countKey]
  | cons kv t ih =>
    obtain ⟨ka, ea⟩ := kv
    simp only [keysOf, List.map_cons, List.nodup_cons] at h
    obtain ⟨h1, h2⟩ := h
    by_cases hk : ka = k
    · subst hk
      simp [setEntry, countKey, filter_key_eq_nil h1]
    · simpa [setEntry, hk, countKey, hk] using ih h2

/-- C1, delete half: with total 0 nothing remains under the key. -/
theorem countKey_upsert_zero {L : Ledger} {k : Key}
    (h : (keysOf L).Nodup) (p : Int) : countKey (Ledger.upsert L k 0 p) k = 0 := by
  simp only [Ledger.upsert, if_pos rfl]
  induction L with
  | nil => simp [eraseKey, countKey]
  | cons kv t ih =>
    obtain ⟨ka, ea⟩ := kv
    simp only [keysOf, List.map_cons, List.nodup_cons] at h
    obtain ⟨h1, h2⟩ := h
    by_cases hk : ka = k
    · subst hk
      simp [eraseKey, countKey, filter_key_eq_nil h1]
    · simpa [eraseKey, hk, countKey, hk] using ih h2

/-- C1 — Upsert contract of the ledger (`app.py` 442-464, `models.py`
unique constraint): an upsert with `lectures_total = 0` deletes any
existing row for the key (no zero row remains); an upsert with
`lectures_total > 0` and `0 ≤ lectures_present ≤ lectures_total` leaves
exactly one row for the key holding exactly the given values, and a later
upsert on the same key replaces the stored values instead of
accumulating them. -/
theorem claim_C1_upsert_contract (L : Ledger) (k : Key) (t p t2 p2 : Int)
    (hnodup : (keysOf L).Nodup) (ht : 0 < t) (hp0 : 0 ≤ p) (hpt : p ≤ t)
    (ht2 : 0 < t2) :
    lookupKey (Ledger.upsert L k 0 p) k = none
    ∧ countKey (Ledger.upsert L k 0 p) k = 0
    ∧ lookupKey (Ledger.upsert L k t p) k = some ⟨t, p⟩
    ∧ countKey (Ledger.upsert L k t p) k = 1
    ∧ lookupKey (Ledger.upsert (Ledger.upsert L k t p) k t2 p2) k = some ⟨t2, p2⟩ := by
  have htne : t ≠ 0 := by omega
  have ht2ne : t2 ≠ 0 := by omega
  refine ⟨?_, countKey_upsert_zero hnodup p, ?_, ?_, ?_⟩
  · simp only [Ledger.upsert, if_pos rfl]
    exact lookupKey_eraseKey_self hnodup
  · simp only [Ledger.upsert, if_neg htne]
    exact lookupKey_setEntry_self L k ⟨t, p⟩
  · simp only [Ledger.upsert, if_neg htne]
    exact countKey_setEntry ⟨t, p⟩ hnodup
  · simp only [Ledger.upsert, if_neg htne, if_neg ht2ne]
    exact lookupKey_setEntry_self _ k ⟨t2, p2⟩

/-- Witness for C1 on a concrete ledger. -/
theorem claim_C1_witness :
    lookupKey (Ledger.upsert [((1, 2, 10), ⟨3, 1⟩)] (1, 2, 10) 0 0) (1, 2, 10) = none
    ∧ countKey (Ledger.upsert [((1, 2, 10), ⟨3, 1⟩)] (1, 2, 10) 0 0) (1, 2, 10) = 0
    ∧ lookupKey (Ledger.upsert [((1, 2, 10), ⟨3, 1⟩)] (1, 2, 10) 2 1) (1, 2, 10) = some ⟨2, 1⟩
    ∧ countKey (Ledger.upsert [((1, 2, 10), ⟨3, 1⟩)] (1, 2, 10) 2 1) (1, 2, 10) = 1
    ∧ lookupKey (Ledger.upsert (Ledger.upsert [((1, 2, 10), ⟨3, 1⟩)] (1, 2, 10) 2 1)
        (1, 2, 10) 3 0) (1, 2, 10) = some ⟨3, 0⟩ :=
  claim_C1_upsert_contract [((1, 2, 10), ⟨3, 1⟩)] (1, 2, 10) 2 1 3 0
    (by decide) (by decide) (by decide) (by decide) (by decide)

/-!
Confirmation Executor: `confirm_attendance` (`app.py` 791-877).
One proposed edit is the dict stored from the parsed preview.  The fields
below model the `item.get` accesses of the loop body: `subject_id` is
`none` when the key is missing, `date` is the result of
`datetime.strptime(date_str, ...)` with `none` standing for a missing or
unparseable date string (the `except` branch), `lectures` is
`item.get('lectures', 1)` coerced by `int`, and `status` is
`item.get('status', 'present')`. -/

/-- Python strings are modelled as lists of characters. -/
abbrev PyStr := List Char

structure ProposedEdit where
  subject_id : Option Nat
  date : Option Int
  lectures : Int
  status : PyStr
deriving DecidableEq, Repr

/-- `lectures = max(1, min(3, int(lectures)))` (`app.py` 833). -/
def clampLectures (l : Int) : Int := max 1 (min 3 l)

/-- Date validation of the loop (`app.py` 822-830): an unparseable or
missing date becomes today, and a future date is replaced by today. -/
def clampDate (today : Int) (d : Option Int) : Int :=
  match d with
  | none => today
  | some dd => if today < dd then today else dd

/-- The literal status string compared against (`app.py` 836). -/
def presentStr : PyStr := "present".data

/-- `Subject.query.get(subject_id)` against the subject table, which the
executor consults only for existence (`app.py` 818-820).  A missing
`subject_id` key (Python `None`) never resolves. -/
def subjectResolves (subjects : List Nat) (sid : Option Nat) : Bool :=
  match sid with
  | none => false
  | some s => subjects.contains s

/-- Validation of one proposed edit (`app.py` 811-839): `none` when the
subject does not resolve (the item is skipped), otherwise the key and the
row the upsert will write. -/
def procItem (subjects : List Nat) (today : Int) (user : Nat)
    (it : ProposedEdit) : Option (Key × Entry) :=
  match it.subject_id with
  | none => none
  | some sid =>
    if subjects.contains sid then
      let d := clampDate today it.date
      let l := clampLectures it.lectures
      let p := if it.status = presentStr then l else 0
      some ((user, sid, d), ⟨l, p⟩)
    else none

/-- The executor loop (`app.py` 810-861): skipped items leave the staged
ledger and `marked_count` unchanged; surviving items are upserted
(insert-or-overwrite, `app.py` 842-859 — `lectures_total ≥ 1` here, so no
delete branch exists) and counted. -/
def confirmApply (subjects : List Nat) (today : Int) (user : Nat)
    (L : Ledger) : List ProposedEdit → Ledger × Nat
  | [] => (L, 0)
  | it :: rest =>
    match procItem subjects today user it with
    | none => confirmApply subjects today user L rest
    | some (k, e) =>
      let r := confirmApply subjects today user (setEntry L k e) rest
      (r.1, r.2 + 1)

/-- The session-held pending proposal (`session['pending_attendance']`,
`app.py` 772-775): the proposed edits and the creation timestamp
(`time.time()`, modelled in whole seconds). -/
structure PendingAttendance where
  data : List ProposedEdit
  timestamp : Int
deriving DecidableEq, Repr

/-- State touched by the confirm endpoint: the session's pending entry
and the attendance table. -/
structure ConfirmState where
  pending : Option PendingAttendance
  ledger : Ledger
deriving DecidableEq, Repr

/-- Responses of `/api/chat/confirm` (`app.py` 791-877). -/
inductive ConfirmResp where
  /-- 400, "No pending attendance action found. Please try again." -/
  | noPending
  /-- 400, "The attendance preview has expired. Please start over." -/
  | expired
  /-- 200, success with `marked_count`. -/
  | ok (marked_count : Nat)
  /-- 500, `db.session.commit()` raised and the transaction rolled back. -/
  | storeFailure
deriving DecidableEq, Repr

def ConfirmResp.status : ConfirmResp → Nat
  | .noPending => 400
  | .expired => 400
  | .ok _ => 200
  | .storeFailure => 500

/-- `confirm_attendance` (`app.py` 791-877).  `commitOk` models the
outcome of `db.session.commit()`: the store either makes every staged
upsert durable or raises, in which case `db.session.rollback()` discards
the whole batch and the session entry is left in place (the
`session.pop` on the success path is never reached). -/
def confirm_attendance (subjects : List Nat) (today now : Int) (user : Nat)
    (commitOk : Bool) (st : ConfirmState) : ConfirmResp × ConfirmState :=
  match st.pending with
  | none => (.noPending, st)
  | some p =>
    if 300 < now - p.timestamp then
      (.expired, { st with pending := none })
    else
      let r := confirmApply subjects today user st.ledger p.data
      if commitOk then (.ok r.2, { pending := none, ledger := r.1 })
      else (.storeFailure, st)

/-- C2 as amended — per-edit normalisation in the executor (`app.py`
829-839): `lectures_total` is clamped to `[1,3]`, and `lectures_present`
equals `lectures_total` when the status is exactly `"present"` and `0`
for every other status — an unrecognized status is treated as absent,
not defaulted to present. -/
theorem claim_C2_item_normalisation (subjects : List Nat) (today : Int)
    (user : Nat) (it : ProposedEdit) (k : Key) (e : Entry)
    (h : procItem subjects today user it = some (k, e)) :
    1 ≤ e.lectures_total ∧ e.lectures_total ≤ 3
    ∧ (it.status = presentStr → e.lectures_present = e.lectures_total)
    ∧ (it.status ≠ presentStr → e.lectures_present = 0) := by
  cases hs : it.subject_id with
  | none => simp [procItem, hs] at h
  | some sid =>
    by_cases hc : subjects.contains sid
    · simp only [procItem, hs, hc, if_true, Option.some.injEq, Prod.mk.injEq] at h
      obtain ⟨-, he⟩ := h
      subst he
      refine ⟨le_max_left 1 _, max_le (by omega) (min_le_left 3 _), ?_, ?_⟩
      · intro hp; simp [hp]
      · intro hp; simp [hp]
    · simp only [procItem, hs, hc, if_false] at h
      simp at h hc

/-- Witness for the amended C2 at a concrete edit. -/
theorem claim_C2_witness :
    (1 : Int) ≤ 2 ∧ (2 : Int) ≤ 3
    ∧ ((⟨some 4, some 8, 2, "absent".data⟩ : ProposedEdit).status = presentStr →
        (0 : Int) = 2)
    ∧ ((⟨some 4, some 8, 2, "absent".data⟩ : ProposedEdit).status ≠ presentStr →
        (0 : Int) = 0) :=
  claim_C2_item_normalisation [4] 10 1 ⟨some 4, some 8, 2, "absent".data⟩
    (1, 4, 8) ⟨2, 0⟩ (by decide)

/-- Counterexample to C2 as stated: the status `"banana"` is neither
`present` nor `absent`; the claim says it defaults to present, which with
`lectures = 2` would store `lectures_present = 2`, but the executor
stores `lectures_present = 0` (it treats every status other than the
exact string `"present"` as absent, `app.py` 836-839). -/
theorem claim_C2_counterexample :
    (procItem [4] 10 1 ⟨some 4, some 8, 2, "banana".data⟩).map
        (fun r => (r.2.lectures_total, r.2.lectures_present))
      = some (2, 0)
    ∧ (0 : Int) ≠ 2 := by
  constructor
  · decide
  · decide

/-- C4 — expired or absent pending proposal (`app.py` 796-804): confirm
answers HTTP 400, any stale pending entry is cleared, and the ledger is
untouched.  "More than 5 minutes" is the code's strict
`time.time() - pending['timestamp'] > 300`. -/
theorem claim_C4_expired_confirm (subjects : List Nat) (today now : Int)
    (user : Nat) (commitOk : Bool) (st : ConfirmState)
    (h : st.pending = none
        ∨ ∃ p, st.pending = some p ∧ 300 < now - p.timestamp) :
    (confirm_attendance subjects today now user commitOk st).1.status = 400
    ∧ (confirm_attendance subjects today now user commitOk st).2.ledger = st.ledger
    ∧ (confirm_attendance subjects today now user commitOk st).2.pending = none := by
  rcases h with h | ⟨p, hp, hexp⟩
  · simp [confirm_attendance, h, ConfirmResp.status]
  · simp [confirm_attendance, hp, if_pos hexp, ConfirmResp.status]

/-- Witness for C4: a proposal created at time 0, confirmed at time 301. -/
theorem claim_C4_witness :
    (confirm_attendance [1] 10 301 1 true
        ⟨some ⟨[⟨some 1, some 5, 2, "present".data⟩], 0⟩, []⟩).1.status = 400
    ∧ (confirm_attendance [1] 10 301 1 true
        ⟨some ⟨[⟨some 1, some 5, 2, "present".data⟩], 0⟩, []⟩).2.ledger = []
    ∧ (confirm_attendance [1] 10 301 1 true
        ⟨some ⟨[⟨some 1, some 5, 2, "present".data⟩], 0⟩, []⟩).2.pending = none :=
  claim_C4_expired_confirm [1] 10 301 1 true
    ⟨some ⟨[⟨some 1, some 5, 2, "present".data⟩], 0⟩, []⟩
    (Or.inr ⟨⟨[⟨some 1, some 5, 2, "present".data⟩], 0⟩, rfl, by decide⟩)

/-! Lemmas relating the executor loop to a flat list of staged writes,
used for the skip/count properties (C6) and overwrite idempotence (C8). -/

/-- Replay a list of staged writes with insert-or-overwrite semantics. -/
def applyWrites (L : Ledger) : List (Key × Entry) → Ledger
  | [] => L
  | (k, e) :: ws => applyWrites (setEntry L k e) ws

/-- The writes a batch of proposed edits stages (validated survivors only). -/
def writesOf (subjects : List Nat) (today : Int) (user : Nat)
    (items : List ProposedEdit) : List (Key × Entry) :=
  items.filterMap (procItem subjects today user)

theorem confirmApply_fst (subjects : List Nat) (today : Int) (user : Nat)
    (L : Ledger) (items : List ProposedEdit) :
    (confirmApply subjects today user L items).1
      = applyWrites L (writesOf subjects today user items) := by
  induction items generalizing L with
  | nil => rfl
  | cons it rest ih =>
    cases hp : procItem subjects today user it with
    | none =>
      simp only [confirmApply, hp]
      rw [ih L]
      simp [writesOf, List.filterMap_cons, hp]
    | some ke =>
      obtain ⟨k, e⟩ := ke
      simp only [confirmApply, hp, writesOf, List.filterMap_cons, applyWrites]
      exact ih (setEntry L k e)

theorem confirmApply_snd (subjects : List Nat) (today : Int) (user : Nat)
    (L : Ledger) (items : List ProposedEdit) :
    (confirmApply subjects today user L items).2
      = items.countP (fun i => (procItem subjects today user i).isSome) := by
  induction items generalizing L with
  | nil => rfl
  | cons it rest ih =>
    cases hp : procItem subjects today user it with
    | none => simp [confirmApply, hp, List.countP_cons, ih]
    | some ke =>
      obtain ⟨k, e⟩ := ke
      simp [confirmApply, hp, List.countP_cons, ih]

theorem confirmApply_skip (subjects : List Nat) (today : Int) (user : Nat)
    (L : Ledger) (pre post : List ProposedEdit) {it : ProposedEdit}
    (h : procItem subjects today user it = none) :
    confirmApply subjects today user L (pre ++ it :: post)
      = confirmApply subjects today user L (pre ++ post) := by
  induction pre generalizing L with
  | nil => simp [confirmApply, h]
  | cons a pre ih =>
    cases hp : procItem subjects today user a with
    | none => simpa [confirmApply, hp] using ih L
    | some ke =>
      obtain ⟨k, e⟩ := ke
      rw [List.cons_append, List.cons_append]
      simp only [confirmApply, hp]
      rw [ih (setEntry L k e)]

/-- The last staged value for a key, if any (later writes win). -/
def lastWrite : List (Key × Entry) → Key → Option Entry
  | [], _ => none
  | (k', e) :: ws, k =>
    match lastWrite ws k with
    | some v => some v
    | none => if k' = k then some e else none

theorem lookupKey_applyWrites (ws : List (Key × Entry)) (L : Ledger) (k : Key) :
    lookupKey (applyWrites L ws) k
      = match lastWrite ws k with
        | some v => some v
        | none => lookupKey L k := by
  induction ws generalizing L with
  | nil => simp [applyWrites, lastWrite]
  | cons w ws ih =>
    obtain ⟨k', e⟩ := w
    simp only [applyWrites]
    rw [ih]
    cases hlw : lastWrite ws k with
    | some v => simp [lastWrite, hlw]
    | none =>
      by_cases hk : k' = k
      · subst hk
        simp [lastWrite, hlw, lookupKey_setEntry_self]
      · simp [lastWrite, hlw, hk, lookupKey_setEntry_ne _ _ _ _ (Ne.symm hk)]

theorem keysOf_setEntry_of_mem {L : Ledger} {k : Key} (e : Entry)
    (h : k ∈ keysOf L) : keysOf (setEntry L k e) = keysOf L := by
  induction L with
  | nil => simp [keysOf] at h
  | cons kv t ih =>
    obtain ⟨ka, ea⟩ := kv
    by_cases hk : ka = k
    · simp [setEntry, hk, keysOf]
    · simp only [keysOf, List.map_cons, List.mem_cons] at h
      rcases h with h | h

      · exact absurd h.symm hk
      · simpa [setEntry, hk, keysOf] using ih h

theorem mem_keysOf_setEntry {L : Ledger} {k k' : Key} (e : Entry) :
    k' ∈ keysOf (setEntry L k e) ↔ k' ∈ keysOf L ∨ k' = k := by
  induction L with
  | nil => simp [setEntry, keysOf]
  | cons kv t ih =>
    obtain ⟨ka, ea⟩ := kv
    by_cases hk : ka = k
    · simp only [setEntry]
      rw [if_pos hk, hk]
      simp only [keysOf, List.map_cons, List.mem_cons]
      tauto
    · simp only [setEntry, hk, if_false, keysOf, List.map_cons, List.mem_cons]
      simp only [keysOf] at ih
      rw [ih]
      tauto

theorem nodup_keysOf_setEntry {L : Ledger} {k : Key} (e : Entry)
    (h : (keysOf L).Nodup) : (keysOf (setEntry L k e)).Nodup := by
  induction L with
  | nil => simp [setEntry, keysOf]
  | cons kv t ih =>
    obtain ⟨ka, ea⟩ := kv
    simp only [keysOf, List.map_cons, List.nodup_cons] at h
    obtain ⟨h1, h2⟩ := h
    by_cases hk : ka = k
    · simp only [setEntry]
      rw [if_pos hk]
      rw [hk] at h1
      simp only [keysOf, List.map_cons, List.nodup_cons]
      exact ⟨by simpa [keysOf] using h1, h2⟩
    · simp only [setEntry, hk, if_false, keysOf, List.map_cons, List.nodup_cons]
      refine ⟨?_, ih h2⟩
      intro hcon
      rcases (mem_keysOf_setEntry e).mp (by simpa [keysOf] using hcon) with hx | hx
      · exact h1 (by simpa [keysOf] using hx)
      · exact hk hx

theorem mem_keysOf_applyWrites_of_mem {L : Ledger} {k : Key}
    (ws : List (Key × Entry)) (h : k ∈ keysOf L) :
    k ∈ keysOf (applyWrites L ws) := by
  induction ws generalizing L with
  | nil => simpa [applyWrites] using h
  | cons w ws ih =>
    obtain ⟨k', e⟩ := w
    exact ih ((mem_keysOf_setEntry e).mpr (Or.inl h))

theorem write_key_mem_applyWrites {ws : List (Key × Entry)} {w : Key × Entry}
    (L : Ledger) (h : w ∈ ws) : w.1 ∈ keysOf (applyWrites L ws) := by
  induction ws generalizing L with
  | nil => simp at h
  | cons w0 ws ih =>
    obtain ⟨k', e⟩ := w0
    rcases List.mem_cons.mp h with h | h
    · subst h
      exact mem_keysOf_applyWrites_of_mem ws
        ((mem_keysOf_setEntry e).mpr (Or.inr rfl))
    · exact ih (setEntry L k' e) h

theorem keysOf_applyWrites_of_all_mem {L : Ledger} {ws : List (Key × Entry)}
    (h : ∀ w ∈ ws, w.1 ∈ keysOf L) : keysOf (applyWrites L ws) = keysOf L := by
  induction ws generalizing L with
  | nil => rfl
  | cons w ws ih =>
    obtain ⟨k, e⟩ := w
    have hk : k ∈ keysOf L := h (k, e) (List.mem_cons_self _ _)
    have hset : keysOf (setEntry L k e) = keysOf L := keysOf_setEntry_of_mem e hk
    simp only [applyWrites]
    rw [ih, hset]
    intro w hw
    rw [hset]
    exact h w (List.mem_cons_of_mem _ hw)

theorem nodup_keysOf_applyWrites {L : Ledger} (ws : List (Key × Entry))
    (h : (keysOf L).Nodup) : (keysOf (applyWrites L ws)).Nodup := by
  induction ws generalizing L with
  | nil => simpa [applyWrites] using h
  | cons w ws ih =>
    obtain ⟨k, e⟩ := w
    exact ih (nodup_keysOf_setEntry e h)

/-- Two tables with the same key column (in order), the same lookups, and
unique keys are equal row lists. -/
theorem ledger_ext {A B : Ledger} (hk : keysOf A = keysOf B)
    (hl : ∀ k, lookupKey A k = lookupKey B k) (hn : (keysOf A).Nodup) :
    A = B := by
  induction A generalizing B with
  | nil =>
    cases B with
    | nil => rfl
    | cons b B' => simp [keysOf] at hk
  | cons a A' ih =>
    obtain ⟨ka, ea⟩ := a
    cases B with
    | nil => simp [keysOf] at hk
    | cons b B' =>
      obtain ⟨kb, eb⟩ := b
      simp only [keysOf, List.map_cons, List.cons.injEq] at hk
      obtain ⟨hkab, hkt⟩ := hk
      subst hkab
      have hea : ea = eb := by simpa [lookupKey] using hl ka
      subst hea
      simp only [keysOf, List.map_cons, List.nodup_cons] at hn
      obtain ⟨hna, hnt⟩ := hn
      have hB' : ∀ k, lookupKey A' k = lookupKey B' k := by
        intro k
        by_cases hk0 : k = ka
        · subst hk0
          rw [lookupKey_eq_none_of_not_mem (by simpa [keysOf] using hna),
            lookupKey_eq_none_of_not_mem (by
              rw [keysOf, ← hkt]
              simpa [keysOf] using hna)]
        · simpa [lookupKey, Ne.symm hk0] using hl k
      exact congrArg (List.cons _) (ih hkt hB' hnt)

theorem applyWrites_idem {L : Ledger} (ws : List (Key × Entry))
    (hn : (keysOf L).Nodup) :
    applyWrites (applyWrites L ws) ws = applyWrites L ws := by
  have hkeys : keysOf (applyWrites (applyWrites L ws) ws)
      = keysOf (applyWrites L ws) :=
    keysOf_applyWrites_of_all_mem (fun w hw => write_key_mem_applyWrites L hw)
  refine ledger_ext hkeys ?_ ?_
  · intro k
    rw [lookupKey_applyWrites, lookupKey_applyWrites]
    cases hlw : lastWrite ws k with
    | some v => simp
    | none => simp [lookupKey_applyWrites, hlw]
  · exact nodup_keysOf_applyWrites ws (nodup_keysOf_applyWrites ws hn)

/-- Per-subject aggregate for one user (`Subject.get_user_attendance`,
`models.py` 81-104): the sums of `lectures_present` and `lectures_total`
over the user's rows for the subject.  The percentage and remaining
fields of the source are functions of these sums and the static subject
target, so identical sums give identical statistics. -/
def subjectStats (L : Ledger) (user sid : Nat) : Int × Int :=
  L.foldl
    (fun acc kv =>
      if kv.1.1 = user ∧ kv.1.2.1 = sid then
        (acc.1 + kv.2.lectures_present, acc.2 + kv.2.lectures_total)
      else acc)
    (0, 0)

/-- C8 — overwrite idempotence of committed batches (`app.py` 811-863):
replaying the exact same batch over the ledger it produced leaves the
ledger unchanged (hence identical aggregate statistics), because the
upsert writes values that do not depend on the stored row.  The `Nodup`
hypothesis is the table's unique-key constraint. -/
theorem claim_C8_batch_idempotent (subjects : List Nat) (today : Int)
    (user : Nat) (L : Ledger) (items : List ProposedEdit)
    (hn : (keysOf L).Nodup) :
    (confirmApply subjects today user
        (confirmApply subjects today user L items).1 items).1
      = (confirmApply subjects today user L items).1
    ∧ ∀ u sid,
        subjectStats (confirmApply subjects today user
          (confirmApply subjects today user L items).1 items).1 u sid
        = subjectStats (confirmApply subjects today user L items).1 u sid := by
  have h : (confirmApply subjects today user
      (confirmApply subjects today user L items).1 items).1
      = (confirmApply subjects today user L items).1 := by
    rw [confirmApply_fst, confirmApply_fst]
    exact applyWrites_idem (writesOf subjects today user items) hn
  exact ⟨h, fun u sid => by rw [h]⟩

/-- Sample surviving edit used by the witnesses. -/
def sampleOk : ProposedEdit := ⟨some 1, some 5, 2, "present".data⟩

/-- Sample edit whose subject id resolves to no subject. -/
def sampleBad : ProposedEdit := ⟨some 99, none, 1, "present".data⟩

/-- Witness for C8 on a concrete batch. -/
theorem claim_C8_witness :
    (confirmApply [1] 10 7
        (confirmApply [1] 10 7 [((7, 1, 4), ⟨1, 0⟩)] [sampleOk, sampleBad]).1
        [sampleOk, sampleBad]).1
      = (confirmApply [1] 10 7 [((7, 1, 4), ⟨1, 0⟩)] [sampleOk, sampleBad]).1
    ∧ ∀ u sid,
        subjectStats (confirmApply [1] 10 7
          (confirmApply [1] 10 7 [((7, 1, 4), ⟨1, 0⟩)] [sampleOk, sampleBad]).1
          [sampleOk, sampleBad]).1 u sid
        = subjectStats
            (confirmApply [1] 10 7 [((7, 1, 4), ⟨1, 0⟩)] [sampleOk, sampleBad]).1
            u sid :=
  claim_C8_batch_idempotent [1] 10 7 [((7, 1, 4), ⟨1, 0⟩)] [sampleOk, sampleBad]
    (by decide)

/-- C6 — skip-without-abort, applied count, and transactional apply
(`app.py` 810-877): an edit whose subject id does not resolve is skipped
and the rest of the batch is processed as if it were absent;
`marked_count` equals the number of surviving (applied) items, which is
at most the proposed count; and the commit is all-or-nothing — on commit
success the response carries the count and the ledger holds every
surviving upsert, on store failure the rollback leaves the ledger
exactly as before. -/
theorem claim_C6_skip_count_atomic (subjects : List Nat) (today now : Int)
    (user : Nat) (L : Ledger) (pre post items : List ProposedEdit)
    (it : ProposedEdit) (p : PendingAttendance) (st : ConfirmState)
    (hskip : procItem subjects today user it = none)
    (hpend : st.pending = some p) (hfresh : now - p.timestamp ≤ 300) :
    confirmApply subjects today user L (pre ++ it :: post)
      = confirmApply subjects today user L (pre ++ post)
    ∧ (confirmApply subjects today user L items).2
        = items.countP (fun i => (procItem subjects today user i).isSome)
    ∧ (confirmApply subjects today user L items).2 ≤ items.length
    ∧ confirm_attendance subjects today now user true st
        = (.ok (confirmApply subjects today user st.ledger p.data).2,
            ⟨none, (confirmApply subjects today user st.ledger p.data).1⟩)
    ∧ confirm_attendance subjects today now user false st
        = (.storeFailure, st) := by
  have hnotexp : ¬ 300 < now - p.timestamp := by omega
  refine ⟨confirmApply_skip subjects today user L pre post hskip,
    confirmApply_snd subjects today user L items, ?_, ?_, ?_⟩
  · rw [confirmApply_snd]
    exact List.countP_le_length _
  · simp [confirm_attendance, hpend, hnotexp]
  · simp [confirm_attendance, hpend, hnotexp]

/-- Witness for C6 on a concrete pending batch with one bad subject id. -/
theorem claim_C6_witness :
    confirmApply [1] 10 7 [] ([sampleOk] ++ sampleBad :: [])
      = confirmApply [1] 10 7 [] ([sampleOk] ++ [])
    ∧ (confirmApply [1] 10 7 [] [sampleOk, sampleBad]).2
        = [sampleOk, sampleBad].countP (fun i => (procItem [1] 10 7 i).isSome)
    ∧ (confirmApply [1] 10 7 [] [sampleOk, sampleBad]).2
        ≤ [sampleOk, sampleBad].length
    ∧ confirm_attendance [1] 10 100 7 true ⟨some ⟨[sampleOk, sampleBad], 0⟩, []⟩
        = (.ok (confirmApply [1] 10 7 [] [sampleOk, sampleBad]).2,
            ⟨none, (confirmApply [1] 10 7 [] [sampleOk, sampleBad]).1⟩)
    ∧ confirm_attendance [1] 10 100 7 false ⟨some ⟨[sampleOk, sampleBad], 0⟩, []⟩
        = (.storeFailure, ⟨some ⟨[sampleOk, sampleBad], 0⟩, []⟩) :=
  claim_C6_skip_count_atomic [1] 10 100 7 [] [sampleOk] []
    [sampleOk, sampleBad] sampleBad ⟨[sampleOk, sampleBad], 0⟩
    ⟨some ⟨[sampleOk, sampleBad], 0⟩, []⟩ (by decide) rfl (by decide)

/-!
Rate Limiter (`app.py` 45-60).  `time.time()` values are modelled as
integer seconds; only differences and comparisons against the window are
used by the code. -/

def RATE_LIMIT_REQUESTS : Nat := 20

def RATE_LIMIT_WINDOW : Int := 86400

/-- `check_rate_limit` (`app.py` 50-60) on one user's timestamp list:
replaces the list by the entries younger than the window, then rejects at
capacity or records `now` and reports the remaining quota.  Returns
(allowed, remaining, stored list). -/
def check_rate_limit (now : Int) (ts : List Int) : Bool × Nat × List Int :=
  let kept := ts.filter (fun t => now - t < RATE_LIMIT_WINDOW)
  if RATE_LIMIT_REQUESTS ≤ kept.length then
    (false, 0, kept)
  else
    (true, RATE_LIMIT_REQUESTS - (kept.length + 1), kept ++ [now])

theorem length_filter_lt_of_exists {α : Type} (p : α → Bool) (l : List α)
    (h : ∃ a ∈ l, ¬ p a) : (l.filter p).length < l.length := by
  obtain ⟨a, ha, hpa⟩ := h
  induction l with
  | nil => simp at ha
  | cons b l ih =>
    rcases List.mem_cons.mp ha with rfl | ha'
    · have : (l.filter p).length ≤ l.length := l.length_filter_le p
      simp only [List.filter_cons, hpa, if_false, Bool.false_eq_true, ite_false,
        List.length_cons]
      omega
    · have := ih ha'
      by_cases hb : p b
      · simpa [List.filter_cons, hb] using this
      · have : (l.filter p).length ≤ l.length := l.length_filter_le p
        simp only [List.filter_cons, hb, Bool.false_eq_true, ite_false,
          List.length_cons]
        omega

/-- C5 — the rate limiter (`app.py` 50-60): a check first drops every
timestamp at least 24 hours old (only those strictly inside the rolling
window survive); if fewer than 20 survive, `now` is recorded and the call
is allowed with `remaining = 20 - count` counted after recording,
otherwise it is rejected with `remaining = 0` and nothing recorded.
Consequently 20 timestamps inside the window reject the 21st call, and
once old timestamps fall outside the window the eviction restores
capacity and the call is allowed again. -/
theorem claim_C5_rate_limiter (now : Int) (ts : List Int) :
    (∀ t ∈ (check_rate_limit now ts).2.2, now - t < RATE_LIMIT_WINDOW ∨ t = now)
    ∧ ((ts.filter (fun t => now - t < RATE_LIMIT_WINDOW)).length < 20 →
        check_rate_limit now ts
          = (true, 20 - ((ts.filter (fun t => now - t < RATE_LIMIT_WINDOW)).length + 1),
              ts.filter (fun t => now - t < RATE_LIMIT_WINDOW) ++ [now]))
    ∧ (20 ≤ (ts.filter (fun t => now - t < RATE_LIMIT_WINDOW)).length →
        check_rate_limit now ts
          = (false, 0, ts.filter (fun t => now - t < RATE_LIMIT_WINDOW)))
    ∧ (ts.length = 20 → (∀ t ∈ ts, now - t < RATE_LIMIT_WINDOW) →
        (check_rate_limit now ts).1 = false)
    ∧ (ts.length = 20 → (∃ t ∈ ts, ¬ now - t < RATE_LIMIT_WINDOW) →
        (check_rate_limit now ts).1 = true) := by
  refine ⟨?_, ?_, ?_, ?_, ?_⟩
  · intro t ht
    by_cases hcap : RATE_LIMIT_REQUESTS
        ≤ (ts.filter (fun t => now - t < RATE_LIMIT_WINDOW)).length
    · simp only [check_rate_limit, if_pos hcap] at ht
      exact Or.inl (by simpa using (List.mem_filter.mp ht).2)
    · simp only [check_rate_limit, if_neg hcap] at ht
      rcases List.mem_append.mp ht with h | h
      · exact Or.inl (by simpa using (List.mem_filter.mp h).2)
      · exact Or.inr (by simpa using h)
  · intro h
    have : ¬ RATE_LIMIT_REQUESTS
        ≤ (ts.filter (fun t => now - t < RATE_LIMIT_WINDOW)).length := by
      simp only [RATE_LIMIT_REQUESTS]; omega
    simp [check_rate_limit, this, RATE_LIMIT_REQUESTS]
    omega
  · intro h
    have : RATE_LIMIT_REQUESTS
        ≤ (ts.filter (fun t => now - t < RATE_LIMIT_WINDOW)).length := by
      simpa [RATE_LIMIT_REQUESTS] using h
    simp [check_rate_limit, this]
  · intro hlen hin
    have hfull : ts.filter (fun t => now - t < RATE_LIMIT_WINDOW) = ts :=
      List.filter_eq_self.mpr (fun t ht => by simpa using hin t ht)
    simp [check_rate_limit, hfull, hlen, RATE_LIMIT_REQUESTS]
  · intro hlen hout
    have hlt : (ts.filter (fun t => now - t < RATE_LIMIT_WINDOW)).length < ts.length :=
      length_filter_lt_of_exists _ ts
        (by obtain ⟨t, ht, hn⟩ := hout; exact ⟨t, ht, by simpa using hn⟩)
    have : ¬ RATE_LIMIT_REQUESTS
        ≤ (ts.filter (fun t => now - t < RATE_LIMIT_WINDOW)).length := by
      simp only [RATE_LIMIT_REQUESTS]; omega
    simp [check_rate_limit, this]

/-- A full window of 20 fresh timestamps for the C5 witness. -/
def fullWindow : List Int := List.replicate 20 (50 : Int)

/-- Witness for C5: at `now = 100` a full 20-entry window rejects the
21st call; at `now = 86500` the same entries are stale, eviction restores
capacity, and the call is allowed. -/
theorem claim_C5_witness :
    (check_rate_limit 100 fullWindow).1 = false
    ∧ (check_rate_limit 86500 fullWindow).1 = true :=
  ⟨(claim_C5_rate_limiter 100 fullWindow).2.2.2.1 (by decide) (by decide),
    (claim_C5_rate_limiter 86500 fullWindow).2.2.2.2 (by decide) (by decide)⟩

/-!
Weekly report window (`cron_weekly_report`, `app.py` 886-969), for one
user: the window bounds, the filtered records, and the per-subject map
initialised to 0/0 for every known subject. -/

/-- `end_date = today - timedelta(days=1)` (`app.py` 902). -/
def weeklyEnd (today : Int) : Int := today - 1

/-- `start_date = end_date - timedelta(days=6)` (`app.py` 903). -/
def weeklyStart (today : Int) : Int := weeklyEnd today - 6

/-- The cron query (`app.py` 910-914): the user's rows with
`start_date <= date <= end_date`. -/
def weeklyRecords (L : Ledger) (user : Nat) (today : Int) : Ledger :=
  L.filter (fun kv =>
    kv.1.1 = user ∧ weeklyStart today ≤ kv.1.2.2 ∧ kv.1.2.2 ≤ weeklyEnd today)

/-- `subjects_map` initialisation (`app.py` 921-927): every known subject
starts at attended 0 / total 0. -/
def initSubjectsMap (subjects : List Nat) : List (Nat × Int × Int) :=
  subjects.map (fun sid => (sid, 0, 0))

/-- One accumulation step (`app.py` 929-934): a record adds its
`lectures_present`/`lectures_total` to its subject's slot; a record whose
subject id is not in the map is ignored. -/
def addRecord (m : List (Nat × Int × Int)) (sid : Nat) (p t : Int) :
    List (Nat × Int × Int) :=
  match m with
  | [] => []
  | (s, a, b) :: rest =>
    if s = sid then (s, a + p, b + t) :: rest else (s, a, b) :: addRecord rest sid p t

/-- The per-subject weekly breakdown for one user (`app.py` 910-937). -/
def weeklySubjectsMap (subjects : List Nat) (L : Ledger) (user : Nat)
    (today : Int) : List (Nat × Int × Int) :=
  (weeklyRecords L user today).foldl
    (fun m kv => addRecord m kv.1.2.1 kv.2.lectures_present kv.2.lectures_total)
    (initSubjectsMap subjects)

theorem addRecord_keys (m : List (Nat × Int × Int)) (sid : Nat) (p t : Int) :
    (addRecord m sid p t).map Prod.fst = m.map Prod.fst := by
  induction m with
  | nil => rfl
  | cons x rest ih =>
    obtain ⟨s, a, b⟩ := x
    by_cases hs : s = sid
    · simp [addRecord, hs]
    · simp [addRecord, hs, ih]

theorem addRecord_preserves_other {m : List (Nat × Int × Int)} {sid s : Nat}
    {v : Int × Int} (p t : Int) (hne : s ≠ sid) (h : (s, v) ∈ m) :
    (s, v) ∈ addRecord m sid p t := by
  induction m with
  | nil => simp at h
  | cons x rest ih =>
    obtain ⟨s', a, b⟩ := x
    by_cases hs : s' = sid
    · subst hs
      rcases List.mem_cons.mp h with hx | hx
      · exact absurd (congrArg Prod.fst hx) hne
      · have hrw : addRecord ((s', a, b) :: rest) s' p t
            = (s', a + p, b + t) :: rest := by simp [addRecord]
        rw [hrw]
        exact List.mem_cons_of_mem _ hx
    · rcases List.mem_cons.mp h with hx | hx
      · simp only [addRecord]
        rw [if_neg hs, hx]
        exact List.mem_cons_self _ _
      · simp only [addRecord]
        rw [if_neg hs]
        exact List.mem_cons_of_mem _ (ih hx)

theorem foldl_addRecord_preserves {recs : Ledger} {s : Nat} {v : Int × Int}
    (m : List (Nat × Int × Int)) (h : (s, v) ∈ m)
    (hnone : ∀ kv ∈ recs, kv.1.2.1 ≠ s) :
    (s, v) ∈ recs.foldl
      (fun m kv => addRecord m kv.1.2.1 kv.2.lectures_present kv.2.lectures_total)
      m := by
  induction recs generalizing m with
  | nil => simpa using h
  | cons kv recs ih =>
    simp only [List.foldl_cons]
    exact ih _
      (addRecord_preserves_other _ _
        (fun hs => hnone kv (List.mem_cons_self _ _) hs.symm) h)
      (fun kv' hkv' => hnone kv' (List.mem_cons_of_mem _ hkv'))

theorem foldl_addRecord_keys (recs : Ledger) (m : List (Nat × Int × Int)) :
    (recs.foldl
      (fun m kv => addRecord m kv.1.2.1 kv.2.lectures_present kv.2.lectures_total)
      m).map Prod.fst = m.map Prod.fst := by
  induction recs generalizing m with
  | nil => rfl
  | cons kv recs ih =>
    simp only [List.foldl_cons]
    rw [ih, addRecord_keys]

/-- C9 — the weekly window and its aggregation (`app.py` 898-935): the
window is exactly the 7 days ending yesterday (`today - 7` through
`today - 1`, both inclusive); a row is counted iff it belongs to the user
and its date lies in `[start, end]` inclusive; every known subject
appears in the breakdown, and a subject with no row in the window stays
at 0/0. -/
theorem claim_C9_weekly_window (subjects : List Nat) (L : Ledger)
    (user : Nat) (today : Int) (s : Nat) (kv : Key × Entry)
    (hs : s ∈ subjects)
    (hnorec : ∀ r ∈ weeklyRecords L user today, r.1.2.1 ≠ s) :
    weeklyEnd today = today - 1
    ∧ weeklyStart today = today - 7
    ∧ weeklyEnd today - weeklyStart today + 1 = 7
    ∧ (kv ∈ weeklyRecords L user today ↔ kv ∈ L ∧ kv.1.1 = user
        ∧ weeklyStart today ≤ kv.1.2.2 ∧ kv.1.2.2 ≤ weeklyEnd today)
    ∧ (weeklySubjectsMap subjects L user today).map Prod.fst = subjects
    ∧ (s, 0, 0) ∈ weeklySubjectsMap subjects L user today := by
  refine ⟨rfl, by unfold weeklyStart weeklyEnd; ring,
    by unfold weeklyStart weeklyEnd; ring, ?_, ?_, ?_⟩
  · simp [weeklyRecords, List.mem_filter, and_assoc]
  · rw [weeklySubjectsMap, foldl_addRecord_keys]
    simp [initSubjectsMap, List.map_map, Function.comp_def]
  · exact foldl_addRecord_preserves _
      (by simpa [initSubjectsMap] using List.mem_map_of_mem (fun sid => (sid, (0 : Int), (0 : Int))) hs)
      hnorec

/-- Witness for C9: subjects 1 and 2, one row for subject 1 inside the
window, one outside; subject 2 stays at 0/0. -/
theorem claim_C9_witness :
    weeklyEnd 10 = 9
    ∧ weeklyStart 10 = 3
    ∧ weeklyEnd 10 - weeklyStart 10 + 1 = 7
    ∧ (((7, 1, 5), (⟨2, 1⟩ : Entry)) ∈
          weeklyRecords [((7, 1, 5), ⟨2, 1⟩), ((7, 2, 2), ⟨3, 3⟩)] 7 10
        ↔ ((7, 1, 5), (⟨2, 1⟩ : Entry)) ∈
            ([((7, 1, 5), ⟨2, 1⟩), ((7, 2, 2), ⟨3, 3⟩)] : Ledger)
          ∧ (7 : Nat) = 7 ∧ weeklyStart 10 ≤ 5 ∧ (5 : Int) ≤ weeklyEnd 10)
    ∧ (weeklySubjectsMap [1, 2] [((7, 1, 5), ⟨2, 1⟩), ((7, 2, 2), ⟨3, 3⟩)] 7 10).map
        Prod.fst = [1, 2]
    ∧ (2, 0, 0) ∈ weeklySubjectsMap [1, 2]
        [((7, 1, 5), ⟨2, 1⟩), ((7, 2, 2), ⟨3, 3⟩)] 7 10 :=
  claim_C9_weekly_window [1, 2] [((7, 1, 5), ⟨2, 1⟩), ((7, 2, 2), ⟨3, 3⟩)] 7 10 2
    ((7, 1, 5), ⟨2, 1⟩) (by decide) (by decide)

/-!
Proposal Parser (`parse_ai_response`, `app.py` 678-707).

String primitives model the Python ones: `str.strip`, `str.find` (the -1
result is modelled as `none`; the source only takes the found branch
after an `in`/`>` test), and slicing `s[a:b]` as `(s.take b).drop a`.

`json.loads` is modelled by a recursive-descent parser over the JSON
value grammar used by the application (null, booleans, integer numbers,
strings with the single-character escapes, arrays, objects); `none`
stands for `json.JSONDecodeError`.  Floats and `\u` escapes are outside
the modelled subset (the code under study never produces them), and a
duplicate object key resolves to the last occurrence as in Python. -/

/-- The whitespace set of Python `str.strip`. -/
def pySpace (c : Char) : Bool :=
  c = ' ' ∨ c = '\t' ∨ c = '\n' ∨ c = '\r' ∨ c = '\x0b' ∨ c = '\x0c'

def pyStrip (s : PyStr) : PyStr :=
  ((s.dropWhile pySpace).reverse.dropWhile pySpace).reverse

def strFindAux (pat : PyStr) : PyStr → Nat → Option Nat
  | [], i => if pat = [] then some i else none
  | c :: rest, i =>
    if pat.isPrefixOf (c :: rest) then some i else strFindAux pat rest (i + 1)

/-- Python `s.find(pat)`: index of the first occurrence. -/
def strFind (s pat : PyStr) : Option Nat := strFindAux pat s 0

/-- Python `s.find(pat, start)`. -/
def strFindFrom (s pat : PyStr) (start : Nat) : Option Nat :=
  (strFind (s.drop start) pat).map (· + start)

/-- Values produced by `json.loads`. -/
inductive Json where
  | null
  | bool (b : Bool)
  | num (n : Int)
  | str (s : PyStr)
  | arr (xs : List Json)
  | obj (fields : List (PyStr × Json))

/-- Python dict lookup on a parsed object (`json.loads` keeps the last
duplicate key, so the last binding wins). -/
def objGet : List (PyStr × Json) → PyStr → Option Json
  | [], _ => none
  | (k', v) :: rest, k =>
    match objGet rest k with
    | some v2 => some v2
    | none => if k' = k then some v else none

def Json.isObj : Json → Bool
  | .obj _ => true
  | _ => false

/-- Python truthiness of a JSON-shaped value. -/
def pyTruthy : Json → Bool
  | .null => false
  | .bool b => b
  | .num n => n ≠ 0
  | .str s => s ≠ []
  | .arr xs => !xs.isEmpty
  | .obj fs => !fs.isEmpty

def jsonWsp (c : Char) : Bool := c = ' ' ∨ c = '\t' ∨ c = '\n' ∨ c = '\r'

def skipWs (s : PyStr) : PyStr := s.dropWhile jsonWsp

def isDigitCh (c : Char) : Bool := '0' ≤ c ∧ c ≤ '9'

def digitsToNat (ds : PyStr) : Nat :=
  ds.foldl (fun a c => a * 10 + (c.toNat - 48)) 0

/-- Single-character escapes of the JSON string grammar. -/
def escChar (c : Char) : Option Char :=
  if c = '"' then some '"'
  else if c = '\\' then some '\\'
  else if c = '/' then some '/'
  else if c = 'n' then some '\n'
  else if c = 't' then some '\t'
  else if c = 'r' then some '\r'
  else if c = 'b' then some '\x08'
  else if c = 'f' then some '\x0c'
  else none

/-- Body of a JSON string after the opening quote. -/
def parseQuoted : Nat → PyStr → Option (PyStr × PyStr)
  | 0, _ => none
  | _, [] => none
  | fuel + 1, c :: rest =>
    if c = '"' then some ([], rest)
    else if c = '\\' then
      match rest with
      | [] => none
      | e :: rest2 =>
        match escChar e with
        | none => none
        | some ce =>
          match parseQuoted fuel rest2 with
          | none => none
          | some (t, r) => some (ce :: t, r)
    else
      match parseQuoted fuel rest with
      | none => none
      | some (t, r) => some (c :: t, r)

mutual

/-- One JSON value and the remaining input. -/
def parseVal : Nat → PyStr → Option (Json × PyStr)
  | 0, _ => none
  | fuel + 1, s0 =>
    let s := skipWs s0
    if ("null".data).isPrefixOf s then some (.null, s.drop 4)
    else if ("true".data).isPrefixOf s then some (.bool true, s.drop 4)
    else if ("false".data).isPrefixOf s then some (.bool false, s.drop 5)
    else
      match s with
      | [] => none
      | c :: rest =>
        if c = '"' then
          match parseQuoted (rest.length + 1) rest with
          | none => none
          | some (t, r) => some (.str t, r)
        else if c = '[' then
          match skipWs rest with
          | ']' :: r2 => some (.arr [], r2)
          | s1 =>
            match parseElems fuel s1 with
            | none => none
            | some (xs, r2) => some (.arr xs, r2)
        else if c = '\x7b' then
          match skipWs rest with
          | '\x7d' :: r2 => some (.obj [], r2)
          | s1 =>
            match parseFields fuel s1 with
            | none => none
            | some (fs, r2) => some (.obj fs, r2)
        else if c = '-' then
          match rest.takeWhile isDigitCh with
          | [] => none
          | ds => some (.num (-(digitsToNat ds : Int)), rest.dropWhile isDigitCh)
        else if isDigitCh c then
          some (.num (digitsToNat ((c :: rest).takeWhile isDigitCh) : Int),
            (c :: rest).dropWhile isDigitCh)
        else none

/-- Non-empty comma-separated array elements up to the closing bracket. -/
def parseElems : Nat → PyStr → Option (List Json × PyStr)
  | 0, _ => none
  | fuel + 1, s =>
    match parseVal fuel s with
    | none => none
    | some (j, r) =>
      match skipWs r with
      | ',' :: r2 =>
        match parseElems fuel r2 with
        | none => none
        | some (xs, r3) => some (j :: xs, r3)
      | ']' :: r2 => some ([j], r2)
      | _ => none

/-- Non-empty comma-separated object members up to the closing brace. -/
def parseFields : Nat → PyStr → Option (List (PyStr × Json) × PyStr)
  | 0, _ => none
  | fuel + 1, s =>
    match skipWs s with
    | '"' :: rest =>
      match parseQuoted (rest.length + 1) rest with
      | none => none
      | some (kstr, r) =>
        match skipWs r with
        | ':' :: r2 =>
          match parseVal fuel r2 with
          | none => none
          | some (v, r3) =>
            match skipWs r3 with
            | ',' :: r4 =>
              match parseFields fuel r4 with
              | none => none
              | some (fs, r5) => some ((kstr, v) :: fs, r5)
            | '\x7d' :: r4 => some ([(kstr, v)], r4)
            | _ => none
        | _ => none
    | _ => none

end

/-- Model of `json.loads`: one JSON value covering the whole input up to
trailing whitespace; `none` models `json.JSONDecodeError`. -/
def json_loads (s : PyStr) : Option Json :=
  match parseVal (2 * s.length + 2) s with
  | none => none
  | some (j, r) => if skipWs r = [] then some j else none

/-- The opening fence searched for (`'¬¬¬json' in response_text`;
backticks written out in the definition body). -/
def FENCE : PyStr := "```json".data

/-- The closing fence (`response_text.find('¬¬¬', start)`). -/
def TICKS : PyStr := "```".data

def actionKey : PyStr := "action".data

def dataKey : PyStr := "data".data

def messageKey : PyStr := "message".data

/-- Exceptions the Python function can raise past its
`except json.JSONDecodeError` handler. -/
inductive PyErr where
  | attributeError
  | typeError
deriving DecidableEq, Repr

/-- The dict returned by `parse_ai_response`.  In the no-action shape the
source omits the `action`/`data` keys and every consumer reads them with
`get('action')` / `get('data', [])`, which is modelled by storing the
`.null` / empty-array defaults directly. -/
structure ParsedResponse where
  has_action : Bool
  action : Json
  data : Json
  message : Json

/-- `{'has_action': False, 'message': response_text}` (`app.py` 704-707). -/
def noActionResult (s : PyStr) : ParsedResponse := ⟨false, .null, .arr [], .str s⟩

/-- `parse_ai_response` (`app.py` 678-707).  `.ok` is a normal return;
`.error` is an exception escaping the function — the source catches only
`json.JSONDecodeError`, so when the fenced block parses to a JSON value
that is not an object the accesses `'message' in action_data` /
`action_data['message']` / `action_data.get('action')` raise `TypeError`
or `AttributeError`.  `start`/`end` are inlined (`start = find + 7`), and
`clean0` is `f"{message_before} {message_after}".strip()`. -/
def parse_ai_response (response_text : PyStr) : Except PyErr ParsedResponse :=
  match strFind response_text FENCE with
  | none => .ok (noActionResult response_text)
  | some i =>
    match strFindFrom response_text TICKS (i + 7) with
    | none => .ok (noActionResult response_text)
    | some e =>
      if i + 7 < e then
        match json_loads (pyStrip ((response_text.take e).drop (i + 7))) with
        | none => .ok (noActionResult response_text)
        | some actionData =>
          let clean0 := pyStrip (pyStrip (response_text.take i) ++ [' ']
            ++ pyStrip (response_text.drop (e + 3)))
          match actionData with
          | .obj fields =>
            let cleanMsg : Json :=
              if clean0 = [] then
                match objGet fields messageKey with
                | some v => v
                | none => .str clean0
              else .str clean0
            let msgOut : Json :=
              if pyTruthy cleanMsg then cleanMsg
              else
                match objGet fields messageKey with
                | some v => v
                | none => .str []
            .ok ⟨true, (objGet fields actionKey).getD .null,
              (objGet fields dataKey).getD (.arr []), msgOut⟩
          | .arr xs =>
            if clean0 = [] ∧ xs.any (fun j =>
                match j with | .str t => t = messageKey | _ => false)
            then .error .typeError
            else .error .attributeError
          | .str t =>
            if clean0 = [] ∧ (strFind t messageKey).isSome
            then .error .typeError
            else .error .attributeError
          | _ =>
            if clean0 = [] then .error .typeError
            else .error .attributeError
      else .ok (noActionResult response_text)

/-- The fenced JSON value of an oracle reply, when one decodes: the same
fence/slice/strip pipeline as `parse_ai_response` up to `json.loads`. -/
def fencedJson (s : PyStr) : Option Json :=
  match strFind s FENCE with
  | none => none
  | some i =>
    match strFindFrom s TICKS (i + 7) with
    | none => none
    | some e =>
      if i + 7 < e then json_loads (pyStrip ((s.take e).drop (i + 7)))
      else none

theorem ite_error {c : Prop} [Decidable c] (a b : PyErr) :
    ∃ e, (if c then Except.error a else Except.error b)
      = (Except.error e : Except PyErr ParsedResponse) := by
  by_cases hc : c
  · exact ⟨a, by rw [if_pos hc]⟩
  · exact ⟨b, by rw [if_neg hc]⟩

theorem parse_of_fenced_none {s : PyStr} (h : fencedJson s = none) :
    parse_ai_response s = .ok (noActionResult s) := by
  cases h1 : strFind s FENCE with
  | none => simp [parse_ai_response, h1]
  | some i =>
    cases h2 : strFindFrom s TICKS (i + 7) with
    | none => simp [parse_ai_response, h1, h2]
    | some e =>
      by_cases h3 : i + 7 < e
      · simp only [fencedJson, h1, h2, if_pos h3] at h
        simp [parse_ai_response, h1, h2, h3, h]
      · simp [parse_ai_response, h1, h2, h3]

theorem parse_of_fenced_obj {s : PyStr} {fields : List (PyStr × Json)}
    (h : fencedJson s = some (.obj fields)) :
    ∃ m, parse_ai_response s
      = .ok ⟨true, (objGet fields actionKey).getD .null,
          (objGet fields dataKey).getD (.arr []), m⟩ := by
  cases h1 : strFind s FENCE with
  | none => simp [fencedJson, h1] at h
  | some i =>
    cases h2 : strFindFrom s TICKS (i + 7) with
    | none => simp [fencedJson, h1, h2] at h
    | some e =>
      by_cases h3 : i + 7 < e
      · simp only [fencedJson, h1, h2, if_pos h3] at h
        simp only [parse_ai_response, h1, h2, if_pos h3, h]
        exact ⟨_, rfl⟩
      · simp [fencedJson, h1, h2, h3] at h

theorem parse_of_fenced_nonobj {s : PyStr} {j : Json}
    (h : fencedJson s = some j) (hno : j.isObj = false) :
    ∃ e, parse_ai_response s = .error e := by
  cases h1 : strFind s FENCE with
  | none => simp [fencedJson, h1] at h
  | some i =>
    cases h2 : strFindFrom s TICKS (i + 7) with
    | none => simp [fencedJson, h1, h2] at h
    | some e =>
      by_cases h3 : i + 7 < e
      · simp only [fencedJson, h1, h2, if_pos h3] at h
        cases j with
        | obj fields => simp [Json.isObj] at hno
        | null =>
          simp only [parse_ai_response, h1, h2, if_pos h3, h]
          exact ite_error _ _
        | bool b =>
          simp only [parse_ai_response, h1, h2, if_pos h3, h]
          exact ite_error _ _
        | num n =>
          simp only [parse_ai_response, h1, h2, if_pos h3, h]
          exact ite_error _ _
        | str t =>
          simp only [parse_ai_response, h1, h2, if_pos h3, h]
          exact ite_error _ _
        | arr xs =>
          simp only [parse_ai_response, h1, h2, if_pos h3, h]
          exact ite_error _ _
      · simp [fencedJson, h1, h2, h3] at h

theorem fencedJson_none_of_noFence {s : PyStr} (h : strFind s FENCE = none) :
    fencedJson s = none := by
  simp [fencedJson, h]

/-- C3 as amended — exception behaviour of the parser (`app.py`
678-707): whenever the fenced block is absent, unclosed, or fails JSON
decoding (the only caught exception), and whenever it decodes to a JSON
object, the parser returns a result (NoAction carrying the full text, or
a Preview-shaped result); but when the block decodes to a JSON value
that is *not* an object, the parser raises an uncaught `TypeError` or
`AttributeError` instead of degrading to NoAction. -/
theorem claim_C3_degrade_or_raise :
    (∀ s, fencedJson s = none → parse_ai_response s = .ok (noActionResult s))
    ∧ (∀ s fields, fencedJson s = some (.obj fields) →
        ∃ r, parse_ai_response s = .ok r)
    ∧ (∀ s j, fencedJson s = some j → j.isObj = false →
        ∃ e, parse_ai_response s = .error e) :=
  ⟨fun _ h => parse_of_fenced_none h,
    fun _ _ h => (parse_of_fenced_obj h).elim (fun _ hm => ⟨_, hm⟩),
    fun _ _ h hno => parse_of_fenced_nonobj h hno⟩

/-- Counterexample to C3 as stated: the reply `"¬¬¬json[1]¬¬¬"` (with
backticks) holds a fenced block that is valid JSON but a list, so
`json.loads` succeeds, the `except json.JSONDecodeError` handler is not
involved, and `action_data.get('action')` raises `AttributeError` to the
caller instead of degrading to NoAction. -/
theorem claim_C3_counterexample :
    parse_ai_response ("```json[1]```".data) = .error .attributeError := by
  rfl

/-- Witness for the amended C3: prose degrades to NoAction, an
object-shaped block returns a result, and a list-shaped block raises. -/
theorem claim_C3_witness :
    parse_ai_response ("no json here".data)
      = .ok (noActionResult ("no json here".data))
    ∧ (∃ r, parse_ai_response ("```json\x7b\x7d```".data) = .ok r)
    ∧ (∃ e, parse_ai_response ("```json[1]```".data) = .error e) :=
  ⟨claim_C3_degrade_or_raise.1 _ (by rfl),
    claim_C3_degrade_or_raise.2.1 _ [] (by rfl),
    claim_C3_degrade_or_raise.2.2 _ (Json.arr [Json.num 1]) (by rfl) (by rfl)⟩

/-- C7 as amended — parser results (`app.py` 678-707): a reply whose
fenced block decodes to an object with action `"preview_attendance"` and
a two-item data list yields `has_action = true` carrying exactly those
two items; plain prose with no fence yields `has_action = false`
carrying the full text.  A `has_action = true` result, however, requires
only that the block decode to a JSON object: the action kind and the
edit-item list are passed through unvalidated (recognition of the action
kind happens downstream in the chat endpoint). -/
theorem claim_C7_parser_results :
    (∀ s fields d1 d2, fencedJson s = some (.obj fields) →
        objGet fields actionKey = some (.str ("preview_attendance".data)) →
        objGet fields dataKey = some (.arr [d1, d2]) →
        ∃ m, parse_ai_response s
          = .ok ⟨true, .str ("preview_attendance".data), .arr [d1, d2], m⟩)
    ∧ (∀ s, strFind s FENCE = none →
        parse_ai_response s = .ok (noActionResult s)) := by
  constructor
  · intro s fields d1 d2 hf ha hd
    obtain ⟨m, hm⟩ := parse_of_fenced_obj hf
    refine ⟨m, ?_⟩
    rw [hm, ha, hd]
    rfl
  · intro s h
    exact parse_of_fenced_none (fencedJson_none_of_noFence h)

/-- Counterexample to the last conjunct of C7 as stated: a fenced block
decoding to the object `\x7b"x": 1\x7d` — no action key, no data list —
still produces `has_action = true` (with action `null` and data `[]`),
so a Preview result does not require a recognized action kind or a list
of edit items. -/
theorem claim_C7_counterexample :
    parse_ai_response ("```json\x7b\"x\": 1\x7d```".data)
      = .ok ⟨true, Json.null, Json.arr [], Json.str []⟩
    ∧ Json.null ≠ Json.str ("preview_attendance".data) :=
  ⟨by rfl, fun hcon => Json.noConfusion hcon⟩

/-- A well-formed preview reply used by the C7 witness. -/
def sGood : PyStr :=
  "Preview: ```json\n\x7b\"action\": \"preview_attendance\", \"data\": [1, 2]\x7d\n``` ok".data

/-- Witness for the amended C7 at concrete oracle replies. -/
theorem claim_C7_witness :
    (∃ m, parse_ai_response sGood
        = .ok ⟨true, .str ("preview_attendance".data),
            .arr [Json.num 1, Json.num 2], m⟩)
    ∧ parse_ai_response ("hello".data) = .ok (noActionResult ("hello".data)) :=
  ⟨claim_C7_parser_results.1 sGood
      [(actionKey, Json.str ("preview_attendance".data)),
        (dataKey, Json.arr [Json.num 1, Json.num 2])]
      (Json.num 1) (Json.num 2) (by rfl) (by rfl) (by rfl),
    claim_C7_parser_results.2 ("hello".data) (by rfl)⟩

/-!
Chat endpoint (`chat_api`, `app.py` 720-789). -/

/-- `session['pending_attendance']` as written by the chat endpoint:
the parsed `data` value and `time.time()`. -/
structure PendingJson where
  data : Json
  timestamp : Int

/-- Responses of `/api/chat` (`app.py` 720-789). -/
inductive ChatResp where
  /-- 429, rate limit exceeded. -/
  | rateLimited
  /-- 503, Gemini client unavailable. -/
  | serviceUnavailable
  /-- 400, "Message cannot be empty." -/
  | emptyMessage
  /-- 400, "Message too long. Please keep it under 500 characters." -/
  | tooLong
  /-- 200 with the parsed oracle reply and the remaining quota. -/
  | okResp (message : Json) (has_action : Bool) (action : Json)
      (action_data : Json) (remaining : Nat)
  /-- 500, the handler's `except Exception` branch. -/
  | serverError

def ChatResp.status : ChatResp → Nat
  | .rateLimited => 429
  | .serviceUnavailable => 503
  | .emptyMessage => 400
  | .tooLong => 400
  | .okResp _ _ _ _ _ => 200
  | .serverError => 500

/-- `parsed['action'] == 'preview_attendance'` (`app.py` 771). -/
def isPreviewAction : Json → Bool
  | .str t => t = "preview_attendance".data
  | _ => false

/-- `chat_api` (`app.py` 720-789) for one user: consumes the rate limit,
then checks the Gemini client, then validates the message (`strip`,
emptiness, 500-character cap), and only then consults the oracle, whose
reply text is the `aiText` parameter; `clientOk` models
`get_gemini_client()` succeeding.  Returns the response, the user's
stored timestamp list, and the session's pending entry. -/
def chat_api (now : Int) (ts : List Int) (clientOk : Bool) (message : PyStr)
    (aiText : PyStr) (pending : Option PendingJson) :
    ChatResp × List Int × Option PendingJson :=
  let rl := check_rate_limit now ts
  if rl.1 = false then (.rateLimited, rl.2.2, pending)
  else if clientOk = false then (.serviceUnavailable, rl.2.2, pending)
  else
    let user_message := pyStrip message
    if user_message = [] then (.emptyMessage, rl.2.2, pending)
    else if 500 < user_message.length then (.tooLong, rl.2.2, pending)
    else
      match parse_ai_response aiText with
      | .error _ => (.serverError, rl.2.2, pending)
      | .ok parsed =>
        let pending' :=
          if parsed.has_action ∧ isPreviewAction parsed.action
          then some ⟨parsed.data, now⟩ else pending
        (.okResp parsed.message parsed.has_action parsed.action parsed.data
            rl.2.1, rl.2.2, pending')

theorem check_rate_limit_allowed (now : Int) (ts : List Int)
    (h : (ts.filter (fun t => now - t < RATE_LIMIT_WINDOW)).length < 20) :
    check_rate_limit now ts
      = (true, 20 - ((ts.filter (fun t => now - t < RATE_LIMIT_WINDOW)).length + 1),
          ts.filter (fun t => now - t < RATE_LIMIT_WINDOW) ++ [now]) := by
  have hcap : ¬ RATE_LIMIT_REQUESTS
      ≤ (ts.filter (fun t => now - t < RATE_LIMIT_WINDOW)).length := by
    simp only [RATE_LIMIT_REQUESTS]; omega
  simp [check_rate_limit, hcap, RATE_LIMIT_REQUESTS]
  omega

/-- C10 — rate-limit consumption precedes message validation (`app.py`
722-744): for an under-quota user with the oracle client available, an
empty or over-500-character message is rejected with HTTP 400, yet the
request's timestamp has already been recorded against the 24-hour quota,
and the response is computed without consulting the oracle (it is
independent of the oracle's reply text). -/
theorem claim_C10_consume_before_validate (now : Int) (ts : List Int)
    (message aiText : PyStr) (pending : Option PendingJson)
    (hquota : (ts.filter (fun t => now - t < RATE_LIMIT_WINDOW)).length < 20)
    (hbad : pyStrip message = [] ∨ 500 < (pyStrip message).length) :
    (chat_api now ts true message aiText pending).1.status = 400
    ∧ (chat_api now ts true message aiText pending).2.1
        = ts.filter (fun t => now - t < RATE_LIMIT_WINDOW) ++ [now]
    ∧ ∀ aiText2, chat_api now ts true message aiText2 pending
        = chat_api now ts true message aiText pending := by
  have hcrl := check_rate_limit_allowed now ts hquota
  by_cases hempty : pyStrip message = []
  · refine ⟨?_, ?_, ?_⟩ <;>
      simp [chat_api, hcrl, hempty, ChatResp.status]
  · have hlong : 500 < (pyStrip message).length := by
      rcases hbad with hb | hb
      · exact absurd hb hempty
      · exact hb
    refine ⟨?_, ?_, ?_⟩ <;>
      simp [chat_api, hcrl, hempty, hlong, ChatResp.status]

/-- Witness for C10: a blank message from a fresh user still consumes a
slot and is rejected with 400 regardless of the oracle text. -/
theorem claim_C10_witness :
    (chat_api 0 [] true ("   ".data) ("oracle says hi".data) none).1.status = 400
    ∧ (chat_api 0 [] true ("   ".data) ("oracle says hi".data) none).2.1
        = ([] : List Int).filter (fun t => (0 : Int) - t < RATE_LIMIT_WINDOW) ++ [0]
    ∧ ∀ aiText2, chat_api 0 [] true ("   ".data) aiText2 none
        = chat_api 0 [] true ("   ".data) ("oracle says hi".data) none :=
  claim_C10_consume_before_validate 0 [] ("   ".data) ("oracle says hi".data)
    none (by decide) (Or.inl (by rfl))

end AttendEase
